import Mathlib

/-!
Shallow embedding of the stats-history aggregation scripts of the
paymium-e2e-allure-reports repository.

The core is src/update-stats-history.js: it classifies each manifest
record by platform and environment, groups records by the calendar date
extracted from the timestamp, builds a fresh per-date aggregate, merges it
over the previously persisted history (new dates overwrite, old dates are
preserved) and emits the entry list sorted ascending by date.

JavaScript objects keyed by strings are embedded as association lists
with replace-or-append update (mapSet); JS string sort is embedded as
lexicographic sort on Lean strings; parseInt followed by the zero
fallback is embedded by jsToNum.  Absent object fields are Option.none.
-/

namespace PaymiumStats

/-! ### String utilities (JS toLowerCase / includes) -/

/-- Is the first list a leading segment of the second (char by char)? -/
def leadsWith : List Char → List Char → Bool
  | [], _ => true
  | _ :: _, [] => false
  | a :: as, b :: bs => a = b && leadsWith as bs

/-- Does the list s contain pat as a contiguous sublist (JS includes)? -/
def hasSub (pat : List Char) : List Char → Bool
  | [] => leadsWith pat []
  | c :: rest => leadsWith pat (c :: rest) || hasSub pat rest

/-- JS String.prototype.includes on Lean strings. -/
def strIncludes (s pat : String) : Bool :=
  hasSub pat.data s.data

/-! ### Classifiers — detectPlatform and normalizeEnv from
src/update-stats-history.js lines 25-41.  The js argument is an Option:
none embeds a missing field, and the JS fallback (x || "") sends both
none and the empty string to the empty string. -/

/-- detectPlatform: platform tag from the lower-cased job name. -/
def detectPlatform (job : Option String) : String :=
  let j := (job.getD "").toLower
  if strIncludes j "android" then "android"
  else if strIncludes j "ios" then "ios"
  else if strIncludes j "browser" || strIncludes j "desktop" || strIncludes j "responsive" then "browser"
  else "other"

/-- normalizeEnv: environment tag from the lower-cased environment field. -/
def normalizeEnv (env : Option String) : String :=
  let e := (env.getD "").toLower
  if strIncludes e "sandbox" then "sandbox"
  else if strIncludes e "staging" then "staging"
  else if strIncludes e "flux" then "flux"
  else if strIncludes e "local" then "local"
  else if e = "" then "unknown"
  else e

/-! ### Date extraction — extractDate, lines 44-48.
The JS regex match against the leading YYYY-MM-DD pattern becomes an
explicit shape check of the first ten characters. -/

/-- Shape check for a ten character list matching the date pattern. -/
def isDatePat : List Char → Bool
  | [a, b, c, d, e, f, g, h, i, j] =>
    a.isDigit && b.isDigit && c.isDigit && d.isDigit && e = '-' &&
    f.isDigit && g.isDigit && h = '-' && i.isDigit && j.isDigit
  | _ => false

/-- extractDate: leading YYYY-MM-DD of a timestamp, none when absent or
when the first ten characters do not match the pattern. -/
def extractDate (ts : Option String) : Option String :=
  match ts with
  | none => none
  | some s =>
    if s = "" then none
    else if isDatePat (s.data.take 10) then some (String.mk (s.data.take 10))
    else none

/-! ### Number coercion — parseInt(x) || 0 as used on lines 87-88.
jsParseInt models JS parseInt on a string field: skip leading whitespace,
optional sign, optional hexadecimal 0x marker, then the longest run of
digits; no digit means NaN, embedded as none.  jsToNum adds the || 0
fallback. -/

def isJsSpace (c : Char) : Bool :=
  c = ' ' || c = '\t' || c = '\n' || c = '\r' || c = '\x0b' || c = '\x0c'

def hexDigitVal (c : Char) : Nat :=
  if c.isDigit then c.toNat - '0'.toNat
  else if 'a' ≤ c ∧ c ≤ 'f' then c.toNat - 'a'.toNat + 10
  else c.toNat - 'A'.toNat + 10

def isHexDigit (c : Char) : Bool :=
  c.isDigit || ('a' ≤ c && c ≤ 'f') || ('A' ≤ c && c ≤ 'F')

/-- Longest leading run of decimal digits, none when empty. -/
def parseDec (cs : List Char) : Option Nat :=
  let ds := cs.takeWhile Char.isDigit
  if ds.isEmpty then none
  else some (ds.foldl (fun n c => n * 10 + (c.toNat - '0'.toNat)) 0)

/-- Longest leading run of hex digits, none when empty. -/
def parseHex (cs : List Char) : Option Nat :=
  let ds := cs.takeWhile isHexDigit
  if ds.isEmpty then none
  else some (ds.foldl (fun n c => n * 16 + hexDigitVal c) 0)

/-- Magnitude part of parseInt: a 0x or 0X marker switches to base 16. -/
def parseMagnitude (cs : List Char) : Option Nat :=
  match cs with
  | '0' :: c :: rest =>
    if c = 'x' || c = 'X' then parseHex rest else parseDec cs
  | _ => parseDec cs

/-- parseInt on the character list: whitespace, sign, magnitude. -/
def jsParseIntCore (cs : List Char) : Option Int :=
  match cs.dropWhile isJsSpace with
  | '-' :: rest => (parseMagnitude rest).map (fun n => -(n : Int))
  | '+' :: rest => (parseMagnitude rest).map (fun n => (n : Int))
  | other => (parseMagnitude other).map (fun n => (n : Int))

/-- parseInt on an optional string field; a missing field is NaN. -/
def jsParseInt (v : Option String) : Option Int :=
  match v with
  | none => none
  | some s => jsParseIntCore s.data

/-- parseInt(x) || 0: NaN collapses to zero. -/
def jsToNum (v : Option String) : Int :=
  (jsParseInt v).getD 0

/-! ### Data model -/

/-- One manifest record, as read from reports/manifest.json.  Every field
is optional: JS tolerates absent properties throughout. -/
structure ReportRecord where
  timestamp : Option String
  environment : Option String
  branch : Option String
  job : Option String
  passed : Option String
  failed : Option String
  pipelineUrl : Option String
  jobUrl : Option String
deriving DecidableEq, Repr

/-- Aggregated counters: runs / passed / failed. -/
structure DailyStat where
  runs : Int
  passed : Int
  failed : Int
deriving DecidableEq, Repr

/-- One calendar date aggregate.  The platforms and environments objects
of the JS code are embedded as association lists in insertion order. -/
structure DayEntry where
  date : String
  totals : DailyStat
  platforms : List (String × DailyStat)
  environments : List (String × DailyStat)
deriving DecidableEq, Repr

/-! ### Association-list embedding of JS string-keyed objects -/

/-- Set a key: replace the existing binding in place, else append. -/
def mapSet {α : Type} : List (String × α) → String → α → List (String × α)
  | [], k, v => [(k, v)]
  | (k1, v1) :: rest, k, v =>
    if k1 = k then (k, v) :: rest else (k1, v1) :: mapSet rest k v

/-- Look a key up: first binding wins. -/
def mapGet {α : Type} : List (String × α) → String → Option α
  | [], _ => none
  | (k1, v1) :: rest, k => if k1 = k then some v1 else mapGet rest k

/-! ### Aggregation — main, lines 72-132 -/

def emptyStat : DailyStat := { runs := 0, passed := 0, failed := 0 }

/-- Fold one record with p passed and f failed into a counter. -/
def statAdd (s : DailyStat) (p f : Int) : DailyStat :=
  { runs := s.runs + 1, passed := s.passed + p, failed := s.failed + f }

/-- Fold one record into the bucket of tag t (created on first use). -/
def bump (m : List (String × DailyStat)) (t : String) (p f : Int) :
    List (String × DailyStat) :=
  mapSet m t (statAdd ((mapGet m t).getD emptyStat) p f)

/-- The fresh DayEntry a date starts from. -/
def freshDay (date : String) : DayEntry :=
  { date := date, totals := emptyStat, platforms := [], environments := [] }

/-- Fold one record into a DayEntry: totals, platform bucket and
environment bucket each take the record's counts (lines 99-120). -/
def updateDay (day : DayEntry) (r : ReportRecord) : DayEntry :=
  let p := jsToNum r.passed
  let f := jsToNum r.failed
  { day with
    totals := statAdd day.totals p f
    platforms := bump day.platforms (detectPlatform r.job) p f
    environments := bump day.environments (normalizeEnv r.environment) p f }

/-- Fold one record into the by-date map newDataByDate (lines 81-121):
a record without a parseable date is dropped. -/
def addRecord (m : List (String × DayEntry)) (r : ReportRecord) :
    List (String × DayEntry) :=
  match extractDate r.timestamp with
  | none => m
  | some date =>
    mapSet m date (updateDay ((mapGet m date).getD (freshDay date)) r)

/-- newDataByDate: the manifest aggregated by date. -/
def buildNewData (manifest : List ReportRecord) : List (String × DayEntry) :=
  manifest.foldl addRecord []

/-- existingMap (lines 72-76): prior entries keyed by date, last wins. -/
def historyMap (entries : List DayEntry) : List (String × DayEntry) :=
  entries.foldl (fun m e => mapSet m e.date e) []

/-- The merge of lines 123-127: fresh per-date entries overwrite. -/
def mergedMap (manifest : List ReportRecord) (prior : List DayEntry) :
    List (String × DayEntry) :=
  (buildNewData manifest).foldl (fun m de => mapSet m de.1 de.2)
    (historyMap prior)

/-- The whole aggregation (lines 72-132): merge, then list the entries
for the keys sorted ascending. -/
def updateStats (manifest : List ReportRecord) (prior : List DayEntry) :
    List DayEntry :=
  let merged := mergedMap manifest prior
  (List.insertionSort (fun a b => a ≤ b) (merged.map Prod.fst)).filterMap
    (mapGet merged)

/-- The output entry of a given date. -/
def lookupDate (entries : List DayEntry) (d : String) : Option DayEntry :=
  entries.find? (fun e => e.date = d)

/-! ### Spec-side classifiers.  These two definitions are written from
the wording of the specification (section Classifiers), to be compared
with detectPlatform and normalizeEnv above, which are written from the
code. -/

/-- From the spec: the platform tag is derived from the lower-cased job
string by the first matching rule in fixed order. -/
def specPlatformOf (j : String) : String :=
  if strIncludes j "android" then "android"
  else if strIncludes j "ios" then "ios"
  else if strIncludes j "browser" then "browser"
  else if strIncludes j "desktop" then "browser"
  else if strIncludes j "responsive" then "browser"
  else "other"

/-- From the spec: the environment tag derived from the lower-cased
environment string; when no keyword matches, the lower-cased original
string if non-empty, else unknown. -/
def specEnvOf (e : String) : String :=
  if strIncludes e "sandbox" then "sandbox"
  else if strIncludes e "staging" then "staging"
  else if strIncludes e "flux" then "flux"
  else if strIncludes e "local" then "local"
  else if e ≠ "" then e
  else "unknown"

/-! ### Run-level model (lines 50-76): the manifest is required, the
prior history file may be absent, corrupt or valid. -/

/-- The state the prior stats-history.json file may be in. -/
inductive HistoryFile : Type
  | absent : HistoryFile
  | corrupt (raw : String) : HistoryFile
  | valid (entries : List DayEntry) : HistoryFile
deriving DecidableEq

/-- Reading the history file (lines 60-70): a corrupt file logs a
warning and yields the fresh empty history; the flag records whether the
warning was logged. -/
def loadHistory : HistoryFile → Bool × List DayEntry
  | .absent => (false, [])
  | .corrupt _ => (true, [])
  | .valid h => (false, h)

/-- The observable outcome of one successful aggregator run. -/
structure RunOutput where
  warned : Bool
  entries : List DayEntry
deriving DecidableEq

/-- One run of the script: a missing manifest is fatal (exit 1),
otherwise the history is loaded tolerantly and the merge runs. -/
def runScript (manifest : Option (List ReportRecord)) (file : HistoryFile) :
    Except String RunOutput :=
  match manifest with
  | none => .error "Manifest not found"
  | some m =>
    let lh := loadHistory file
    .ok { warned := lh.1, entries := updateStats m lh.2 }

/-! ### Reconciler — countFromSummary of
src/fix-stats-from-allure-data.js lines 31-56.  The summary argument is
none when widgets/summary.json is missing, unreadable, or has no
statistic object; each count field is optional with the JS || 0
fallback. -/

/-- The statistic object of an Allure widgets/summary.json. -/
structure AllureStatistic where
  passed : Option Int
  failed : Option Int
  broken : Option Int
  skipped : Option Int
  unknown : Option Int
deriving DecidableEq

/-- The granular per-status counts echoed back as detail. -/
structure DetailCounts where
  passed : Int
  failed : Int
  broken : Int
  skipped : Int
  unknown : Int
deriving DecidableEq

/-- The recomputed record: broken outcomes count as failed. -/
structure FixCounts where
  passed : Int
  failed : Int
  total : Int
  detail : DetailCounts
deriving DecidableEq

/-- countFromSummary: recompute passed / failed / total from the
summary statistic, treating broken as failed. -/
def countFromSummary (summary : Option AllureStatistic) : Option FixCounts :=
  match summary with
  | none => none
  | some stat =>
    let passed := stat.passed.getD 0
    let failed := stat.failed.getD 0
    let broken := stat.broken.getD 0
    let skipped := stat.skipped.getD 0
    let unknown := stat.unknown.getD 0
    some
      { passed := passed
        failed := failed + broken
        total := passed + failed + broken
        detail :=
          { passed := passed, failed := failed, broken := broken,
            skipped := skipped, unknown := unknown } }

/-! ### Reference aggregates used to state the sum claims.  These fold
the same per-record step over an explicit list of records. -/

/-- The records of the manifest whose timestamp parses to date d. -/
def recordsFor (manifest : List ReportRecord) (d : String) :
    List ReportRecord :=
  manifest.filter (fun r => extractDate r.timestamp = some d)

/-- Folding a list of records into one DayEntry starting fresh. -/
def dayFold (d : String) (rs : List ReportRecord) : DayEntry :=
  rs.foldl updateDay (freshDay d)

/-- Folding a list of records into one counter. -/
def statFold (s : DailyStat) (rs : List ReportRecord) : DailyStat :=
  rs.foldl (fun s r => statAdd s (jsToNum r.passed) (jsToNum r.failed)) s

/-- Sum of the passed fields of a record list. -/
def sumPassed (rs : List ReportRecord) : Int :=
  (rs.map (fun r => jsToNum r.passed)).sum

/-- Sum of the failed fields of a record list. -/
def sumFailed (rs : List ReportRecord) : Int :=
  (rs.map (fun r => jsToNum r.failed)).sum

/-- Componentwise sum of all buckets of a tag map. -/
def statsSum (m : List (String × DailyStat)) : DailyStat :=
  { runs := (m.map (fun p => p.2.runs)).sum
    passed := (m.map (fun p => p.2.passed)).sum
    failed := (m.map (fun p => p.2.failed)).sum }

/-- Left-biased choice on options, the shape of overwrite-then-fallback. -/
def optOr {α : Type} : Option α → Option α → Option α
  | some v, _ => some v
  | none, b => b

/-- A date-keyed map is coherent when every stored entry carries its own
key as its date field. -/
def Coherent (m : List (String × DayEntry)) : Prop :=
  ∀ p ∈ m, p.2.date = p.1

/-! ### Concrete sample data, used to evaluate the development on
closed inputs (the two-record scenario of the specification plus one
malformed record and one historical entry). -/

def wRec1 : ReportRecord :=
  { timestamp := some "2026-02-18_100000", environment := some "staging",
    branch := some "main", job := some "android-smoke", passed := some "10",
    failed := some "2", pipelineUrl := none, jobUrl := none }

def wRec2 : ReportRecord :=
  { timestamp := some "2026-02-18_110000", environment := some "sandbox",
    branch := some "main", job := some "ios-e2e", passed := some "5",
    failed := some "0", pipelineUrl := none, jobUrl := none }

def wRecBad : ReportRecord :=
  { timestamp := none, environment := none, branch := none, job := none,
    passed := some "abc", failed := none, pipelineUrl := none, jobUrl := none }

def wOldEntry : DayEntry :=
  { date := "2026-02-01", totals := { runs := 1, passed := 7, failed := 1 },
    platforms := [("ios", { runs := 1, passed := 7, failed := 1 })],
    environments := [("staging", { runs := 1, passed := 7, failed := 1 })] }

def wStat : AllureStatistic :=
  { passed := some 10, failed := some 2, broken := some 1, skipped := some 3,
    unknown := some 0 }

/-! ## Lemma layer: the association-list embedding -/

theorem mapGet_mapSet_self {α : Type} (m : List (String × α)) (k : String) (v : α) :
    mapGet (mapSet m k v) k = some v := by
  induction m with
  | nil => simp [mapSet, mapGet]
  | cons p rest ih =>
    obtain ⟨k1, v1⟩ := p
    by_cases h : k1 = k
    · simp [mapSet, h, mapGet]
    · simp [mapSet, h, mapGet, ih]

theorem mapGet_mapSet_ne {α : Type} (m : List (String × α)) {k k1 : String} (v : α)
    (h : k1 ≠ k) : mapGet (mapSet m k v) k1 = mapGet m k1 := by
  induction m with
  | nil => simp [mapSet, mapGet, Ne.symm h]
  | cons p rest ih =>
    obtain ⟨k2, v2⟩ := p
    by_cases h2 : k2 = k
    · subst h2
      have h1 : ¬ (k2 = k1) := fun hh => h (hh.symm)
      simp only [mapSet, if_pos rfl, mapGet, if_neg h1]
    · simp only [mapSet, if_neg h2, mapGet]
      rw [ih]

theorem mapGet_eq_none_iff {α : Type} (m : List (String × α)) (k : String) :
    mapGet m k = none ↔ k ∉ m.map Prod.fst := by
  induction m with
  | nil => simp [mapGet]
  | cons p rest ih =>
    obtain ⟨k1, v1⟩ := p
    simp only [mapGet, List.map_cons, List.mem_cons]
    by_cases h : k1 = k
    · rw [if_pos h]
      simp [h]
    · rw [if_neg h, ih]
      constructor
      · intro hk hor
        rcases hor with h1 | h2
        · exact h h1.symm
        · exact hk h2
      · intro hk h2
        exact hk (Or.inr h2)

theorem mapGet_mem {α : Type} {m : List (String × α)} {k : String} {v : α}
    (h : mapGet m k = some v) : (k, v) ∈ m := by
  induction m with
  | nil => simp [mapGet] at h
  | cons p rest ih =>
    obtain ⟨k1, v1⟩ := p
    by_cases h1 : k1 = k
    · subst h1
      simp only [mapGet, if_true, eq_self_iff_true, Option.some.injEq] at h
      subst h
      exact List.mem_cons_self _ _
    · simp only [mapGet, if_neg h1] at h
      exact List.mem_cons_of_mem _ (ih h)

theorem mem_keys_mapSet {α : Type} (m : List (String × α)) (k : String) (v : α)
    (k1 : String) :
    k1 ∈ (mapSet m k v).map Prod.fst ↔ k1 = k ∨ k1 ∈ m.map Prod.fst := by
  induction m with
  | nil => simp [mapSet]
  | cons p rest ih =>
    obtain ⟨k2, v2⟩ := p
    by_cases h : k2 = k
    · subst h
      simp [mapSet]
    · simp only [mapSet, if_neg h, List.map_cons, List.mem_cons, ih]
      tauto

theorem nodup_keys_mapSet {α : Type} (m : List (String × α)) (k : String) (v : α)
    (h : (m.map Prod.fst).Nodup) : ((mapSet m k v).map Prod.fst).Nodup := by
  induction m with
  | nil => simp [mapSet]
  | cons p rest ih =>
    obtain ⟨k2, v2⟩ := p
    simp only [List.map_cons, List.nodup_cons] at h
    by_cases h2 : k2 = k
    · subst h2
      simpa [mapSet] using h
    · simp only [mapSet, if_neg h2, List.map_cons, List.nodup_cons]
      constructor
      · rw [mem_keys_mapSet]
        push_neg
        exact ⟨h2, h.1⟩
      · exact ih h.2

theorem mem_of_mem_mapSet {α : Type} {m : List (String × α)} {k : String} {v : α}
    {p : String × α} (hp : p ∈ mapSet m k v) : p = (k, v) ∨ p ∈ m := by
  induction m with
  | nil => simpa [mapSet] using hp
  | cons q rest ih =>
    obtain ⟨k1, v1⟩ := q
    by_cases h : k1 = k
    · subst h
      simp [mapSet] at hp
      rcases hp with h1 | h1
      · left; simp [h1]
      · right; exact List.mem_cons_of_mem _ h1
    · simp [mapSet, h] at hp
      rcases hp with h1 | h1
      · right; simp [h1]
      · rcases ih h1 with h2 | h2
        · left; exact h2
        · right; exact List.mem_cons_of_mem _ h2

theorem optOr_some {α : Type} (v : α) (b : Option α) : optOr (some v) b = some v := rfl

theorem optOr_none {α : Type} (b : Option α) : optOr none b = b := rfl

theorem optOr_absorb {α : Type} (a b : Option α) : optOr a (optOr a b) = optOr a b := by
  cases a <;> rfl

/-- Folding the bindings of a duplicate-free pair list into a map by
repeated overwriting: the pair list wins on its own keys. -/
theorem mapGet_foldl_mapSet {α : Type} (l : List (String × α)) (m : List (String × α))
    (hnd : (l.map Prod.fst).Nodup) (k : String) :
    mapGet (l.foldl (fun acc p => mapSet acc p.1 p.2) m) k =
      optOr (mapGet l k) (mapGet m k) := by
  induction l generalizing m with
  | nil => simp [mapGet, optOr_none]
  | cons p rest ih =>
    obtain ⟨k1, v1⟩ := p
    simp only [List.map_cons, List.nodup_cons] at hnd
    rw [List.foldl_cons, ih _ hnd.2]
    by_cases h : k = k1
    · subst h
      have hnone : mapGet rest k = none := (mapGet_eq_none_iff rest k).mpr hnd.1
      rw [hnone, optOr_none, mapGet_mapSet_self]
      simp [mapGet, optOr_some]
    · rw [mapGet_mapSet_ne _ _ h]
      have h1 : ¬ (k1 = k) := fun hh => h hh.symm
      simp only [mapGet, if_neg h1]

/-! ## Key uniqueness and coherence of the aggregation maps -/

theorem nodup_keys_addRecord (m : List (String × DayEntry)) (r : ReportRecord)
    (h : (m.map Prod.fst).Nodup) : ((addRecord m r).map Prod.fst).Nodup := by
  unfold addRecord
  cases extractDate r.timestamp with
  | none => exact h
  | some d => exact nodup_keys_mapSet _ _ _ h

theorem nodup_keys_foldl_addRecord (M : List ReportRecord)
    (m : List (String × DayEntry)) (h : (m.map Prod.fst).Nodup) :
    ((M.foldl addRecord m).map Prod.fst).Nodup := by
  induction M generalizing m with
  | nil => exact h
  | cons r rest ih => exact ih _ (nodup_keys_addRecord m r h)

theorem nodup_keys_buildNewData (M : List ReportRecord) :
    ((buildNewData M).map Prod.fst).Nodup :=
  nodup_keys_foldl_addRecord M [] (by simp)

theorem nodup_keys_foldl_pairs (l : List (String × DayEntry))
    (m : List (String × DayEntry)) (h : (m.map Prod.fst).Nodup) :
    (((l.foldl (fun acc de => mapSet acc de.1 de.2) m)).map Prod.fst).Nodup := by
  induction l generalizing m with
  | nil => exact h
  | cons p rest ih => exact ih _ (nodup_keys_mapSet m p.1 p.2 h)

theorem nodup_keys_historyMap (H : List DayEntry) :
    ((historyMap H).map Prod.fst).Nodup := by
  unfold historyMap
  have : ∀ (l : List DayEntry) (m : List (String × DayEntry)),
      (m.map Prod.fst).Nodup →
      ((l.foldl (fun acc e => mapSet acc e.date e) m).map Prod.fst).Nodup := by
    intro l
    induction l with
    | nil => intro m hm; exact hm
    | cons e rest ih => intro m hm; exact ih _ (nodup_keys_mapSet m e.date e hm)
  exact this H [] (by simp)

theorem nodup_keys_mergedMap (M : List ReportRecord) (H : List DayEntry) :
    ((mergedMap M H).map Prod.fst).Nodup :=
  nodup_keys_foldl_pairs _ _ (nodup_keys_historyMap H)

theorem coherent_mapSet {m : List (String × DayEntry)} {k : String} {v : DayEntry}
    (hm : Coherent m) (hv : v.date = k) : Coherent (mapSet m k v) := by
  intro p hp
  rcases mem_of_mem_mapSet hp with h | h
  · subst h; exact hv
  · exact hm p h

theorem coherent_nil : Coherent [] := by
  intro p hp
  simp at hp

theorem coherent_historyMap (H : List DayEntry) : Coherent (historyMap H) := by
  unfold historyMap
  have : ∀ (l : List DayEntry) (m : List (String × DayEntry)),
      Coherent m → Coherent (l.foldl (fun acc e => mapSet acc e.date e) m) := by
    intro l
    induction l with
    | nil => intro m hm; exact hm
    | cons e rest ih => intro m hm; exact ih _ (coherent_mapSet hm rfl)
  exact this H [] coherent_nil

theorem date_updateDay (day : DayEntry) (r : ReportRecord) :
    (updateDay day r).date = day.date := rfl

theorem coherent_addRecord {m : List (String × DayEntry)} (r : ReportRecord)
    (hm : Coherent m) : Coherent (addRecord m r) := by
  unfold addRecord
  cases hd : extractDate r.timestamp with
  | none => exact hm
  | some d =>
    apply coherent_mapSet hm
    rw [date_updateDay]
    cases hg : mapGet m d with
    | none => rfl
    | some e => exact hm (d, e) (mapGet_mem hg)

theorem coherent_buildNewData (M : List ReportRecord) :
    Coherent (buildNewData M) := by
  unfold buildNewData
  have : ∀ (l : List ReportRecord) (m : List (String × DayEntry)),
      Coherent m → Coherent (l.foldl addRecord m) := by
    intro l
    induction l with
    | nil => intro m hm; exact hm
    | cons r rest ih => intro m hm; exact ih _ (coherent_addRecord r hm)
  exact this M [] coherent_nil

theorem coherent_foldl_pairs : ∀ (l m : List (String × DayEntry)),
    Coherent l → Coherent m →
    Coherent (l.foldl (fun acc de => mapSet acc de.1 de.2) m) := by
  intro l
  induction l with
  | nil => intro m _ hm; exact hm
  | cons p rest ih =>
    intro m hl hm
    exact ih _ (fun q hq => hl q (List.mem_cons_of_mem _ hq))
      (coherent_mapSet hm (hl p (List.mem_cons_self _ _)))

theorem coherent_mergedMap (M : List ReportRecord) (H : List DayEntry) :
    Coherent (mergedMap M H) :=
  coherent_foldl_pairs _ _ (coherent_buildNewData M) (coherent_historyMap H)

/-- On every key, the merged map is the fresh aggregation with the prior
history as fallback: the shape of the overwrite merge of lines 123-127. -/
theorem mapGet_mergedMap (M : List ReportRecord) (H : List DayEntry) (k : String) :
    mapGet (mergedMap M H) k =
      optOr (mapGet (buildNewData M) k) (mapGet (historyMap H) k) :=
  mapGet_foldl_mapSet _ _ (nodup_keys_buildNewData M) k

/-! ## Characterizing the fresh per-date aggregation -/

theorem buildNewData_append_one (M : List ReportRecord) (r : ReportRecord) :
    buildNewData (M ++ [r]) = addRecord (buildNewData M) r := by
  simp [buildNewData, List.foldl_append]

theorem recordsFor_append_one (M : List ReportRecord) (r : ReportRecord) (d : String) :
    recordsFor (M ++ [r]) d =
      recordsFor M d ++ if extractDate r.timestamp = some d then [r] else [] := by
  simp [recordsFor, List.filter_append, List.filter_singleton]

theorem dayFold_append_one (d : String) (rs : List ReportRecord) (r : ReportRecord) :
    dayFold d (rs ++ [r]) = updateDay (dayFold d rs) r := by
  simp [dayFold, List.foldl_append]

/-- The by-date map built from the manifest holds, for each date with at
least one parseable record, exactly the fold of those records over the
fresh day, and nothing for any other date. -/
theorem mapGet_buildNewData (M : List ReportRecord) (d : String) :
    mapGet (buildNewData M) d =
      if recordsFor M d = [] then none else some (dayFold d (recordsFor M d)) := by
  induction M using List.reverseRecOn with
  | nil => simp [buildNewData, recordsFor, mapGet]
  | append_singleton M r ih =>
    rw [buildNewData_append_one, recordsFor_append_one]
    cases hd : extractDate r.timestamp with
    | none =>
      simp only [addRecord, hd]
      simp [ih]
    | some d1 =>
      by_cases hdd : d1 = d
      · subst hdd
        simp only [addRecord, hd]
        rw [mapGet_mapSet_self]
        simp only [if_true]
        have hne : ¬ (recordsFor M d1 ++ [r] = []) := by simp
        rw [if_neg hne, dayFold_append_one]
        by_cases hemp : recordsFor M d1 = []
        · rw [ih, if_pos hemp, hemp]
          rfl
        · rw [ih, if_neg hemp]
          rfl
      · have hde : ¬ (some d1 = some d) := by simpa using hdd
        simp only [addRecord, hd]
        rw [mapGet_mapSet_ne _ _ (fun hh => hdd hh.symm)]
        simp only [if_neg hde, List.append_nil]
        exact ih

/-! ## The output list -/

theorem mapGet_some_of_mem_keys {α : Type} {m : List (String × α)} {k : String}
    (h : k ∈ m.map Prod.fst) : ∃ v, mapGet m k = some v := by
  cases hg : mapGet m k with
  | none => exact absurd h ((mapGet_eq_none_iff m k).mp hg)
  | some v => exact ⟨v, rfl⟩

theorem lookupDate_filterMap (ks : List String) (m : List (String × DayEntry))
    (hc : Coherent m) (hs : ∀ k ∈ ks, k ∈ m.map Prod.fst) (d : String) :
    lookupDate (ks.filterMap (mapGet m)) d = if d ∈ ks then mapGet m d else none := by
  induction ks with
  | nil => simp [lookupDate]
  | cons k rest ih =>
    obtain ⟨e, he⟩ := mapGet_some_of_mem_keys (hs k (List.mem_cons_self _ _))
    have hdate : e.date = k := hc (k, e) (mapGet_mem he)
    have ihr := ih (fun q hq => hs q (List.mem_cons_of_mem _ hq))
    by_cases hkd : k = d
    · subst hkd
      simp [lookupDate, List.filterMap_cons, he, List.find?_cons, hdate]
    · have hed : ¬ (e.date = d) := by rw [hdate]; exact hkd
      simp only [List.filterMap_cons, he, lookupDate, List.find?_cons,
        decide_eq_true_eq, hed, if_neg hed, decide_eq_false hed]
      rw [lookupDate] at ihr
      rw [ihr]
      by_cases hdr : d ∈ rest
      · simp [hdr, List.mem_cons, Ne.symm hkd]
      · simp [hdr, List.mem_cons, Ne.symm hkd]

theorem updateStats_eq (M : List ReportRecord) (H : List DayEntry) :
    updateStats M H =
      (List.insertionSort (fun a b => a ≤ b) ((mergedMap M H).map Prod.fst)).filterMap
        (mapGet (mergedMap M H)) := rfl

theorem mem_sortedKeys_iff (M : List ReportRecord) (H : List DayEntry) (k : String) :
    k ∈ List.insertionSort (fun a b => a ≤ b) ((mergedMap M H).map Prod.fst) ↔
      k ∈ (mergedMap M H).map Prod.fst :=
  (List.perm_insertionSort _ _).mem_iff

/-- Looking a date up in the output list is looking it up in the merged
map: sorting and listing lose no binding. -/
theorem lookupDate_updateStats (M : List ReportRecord) (H : List DayEntry) (d : String) :
    lookupDate (updateStats M H) d = mapGet (mergedMap M H) d := by
  rw [updateStats_eq]
  rw [lookupDate_filterMap _ _ (coherent_mergedMap M H)
    (fun k hk => (mem_sortedKeys_iff M H k).mp hk) d]
  by_cases h : d ∈ List.insertionSort (fun a b => a ≤ b) ((mergedMap M H).map Prod.fst)
  · rw [if_pos h]
  · rw [if_neg h]
    have hnk : d ∉ (mergedMap M H).map Prod.fst :=
      fun hh => h ((mem_sortedKeys_iff M H d).mpr hh)
    exact ((mapGet_eq_none_iff _ _).mpr hnk).symm

/-- The output entry of date d is the fresh aggregate when the manifest
has records for d, else the prior entry for d, else nothing. -/
theorem lookupDate_updateStats_or (M : List ReportRecord) (H : List DayEntry)
    (d : String) :
    lookupDate (updateStats M H) d =
      optOr (mapGet (buildNewData M) d) (mapGet (historyMap H) d) := by
  rw [lookupDate_updateStats, mapGet_mergedMap]

theorem map_date_filterMap (ks : List String) (m : List (String × DayEntry))
    (hc : Coherent m) (hs : ∀ k ∈ ks, k ∈ m.map Prod.fst) :
    (ks.filterMap (mapGet m)).map DayEntry.date = ks := by
  induction ks with
  | nil => simp
  | cons k rest ih =>
    obtain ⟨e, he⟩ := mapGet_some_of_mem_keys (hs k (List.mem_cons_self _ _))
    have hdate : e.date = k := hc (k, e) (mapGet_mem he)
    simp [List.filterMap_cons, he, hdate,
      ih (fun q hq => hs q (List.mem_cons_of_mem _ hq))]

/-- The output lists exactly the sorted keys of the merged map as dates. -/
theorem map_date_updateStats (M : List ReportRecord) (H : List DayEntry) :
    (updateStats M H).map DayEntry.date =
      List.insertionSort (fun a b => a ≤ b) ((mergedMap M H).map Prod.fst) := by
  rw [updateStats_eq]
  exact map_date_filterMap _ _ (coherent_mergedMap M H)
    (fun k hk => (mem_sortedKeys_iff M H k).mp hk)

theorem sorted_dates_updateStats (M : List ReportRecord) (H : List DayEntry) :
    List.Sorted (fun a b : String => a ≤ b) ((updateStats M H).map DayEntry.date) := by
  rw [map_date_updateStats]
  exact List.sorted_insertionSort _ _

theorem nodup_dates_updateStats (M : List ReportRecord) (H : List DayEntry) :
    ((updateStats M H).map DayEntry.date).Nodup := by
  rw [map_date_updateStats]
  exact ((List.perm_insertionSort _ _).nodup_iff).mpr (nodup_keys_mergedMap M H)

/-! ## The prior-history map under unique dates -/

theorem lookupDate_cons (x : DayEntry) (rest : List DayEntry) (d : String) :
    lookupDate (x :: rest) d = if x.date = d then some x else lookupDate rest d := by
  simp only [lookupDate, List.find?_cons]
  by_cases h : x.date = d
  · simp [h]
  · simp [h, decide_eq_false h]

theorem lookupDate_eq_none_iff (l : List DayEntry) (d : String) :
    lookupDate l d = none ↔ d ∉ l.map DayEntry.date := by
  induction l with
  | nil => simp [lookupDate]
  | cons x rest ih =>
    rw [lookupDate_cons]
    by_cases h : x.date = d
    · simp [h]
    · simp [h, ih, Ne.symm h]

theorem lookupDate_eq_some_of_mem {H : List DayEntry} {e : DayEntry}
    (hnd : (H.map DayEntry.date).Nodup) (he : e ∈ H) :
    lookupDate H e.date = some e := by
  induction H with
  | nil => exact absurd he (List.not_mem_nil e)
  | cons x rest ih =>
    simp only [List.map_cons, List.nodup_cons] at hnd
    rw [lookupDate_cons]
    rcases List.mem_cons.mp he with h | h
    · subst h
      rw [if_pos rfl]
    · by_cases hx : x.date = e.date
      · exact absurd (hx ▸ List.mem_map_of_mem DayEntry.date h) hnd.1
      · rw [if_neg hx]
        exact ih hnd.2 h

theorem mapGet_foldl_entries : ∀ (H : List DayEntry) (m0 : List (String × DayEntry)),
    (H.map DayEntry.date).Nodup → ∀ d,
    mapGet (H.foldl (fun acc e => mapSet acc e.date e) m0) d =
      optOr (lookupDate H d) (mapGet m0 d) := by
  intro H
  induction H with
  | nil =>
    intro m0 _ d
    simp [lookupDate, optOr_none]
  | cons e rest ih =>
    intro m0 hnd d
    simp only [List.map_cons, List.nodup_cons] at hnd
    rw [List.foldl_cons, ih _ hnd.2 d, lookupDate_cons]
    by_cases h : e.date = d
    · subst h
      have hrest : lookupDate rest e.date = none :=
        (lookupDate_eq_none_iff rest e.date).mpr hnd.1
      rw [hrest, optOr_none, if_pos rfl, mapGet_mapSet_self, optOr_some]
    · rw [if_neg h, mapGet_mapSet_ne _ _ (Ne.symm h)]

/-- When the prior log has pairwise distinct dates, the map the code
builds from it finds exactly the entry of each date. -/
theorem mapGet_historyMap (H : List DayEntry)
    (hnd : (H.map DayEntry.date).Nodup) (d : String) :
    mapGet (historyMap H) d = lookupDate H d := by
  unfold historyMap
  rw [mapGet_foldl_entries H [] hnd d]
  cases lookupDate H d <;> rfl

/-! ## Totals and per-tag buckets of a folded day -/

theorem statFold_cons (s : DailyStat) (r : ReportRecord) (rs : List ReportRecord) :
    statFold s (r :: rs) =
      statFold (statAdd s (jsToNum r.passed) (jsToNum r.failed)) rs := rfl

theorem statFold_spec : ∀ (rs : List ReportRecord) (s : DailyStat),
    statFold s rs =
      { runs := s.runs + rs.length, passed := s.passed + sumPassed rs,
        failed := s.failed + sumFailed rs } := by
  intro rs
  induction rs with
  | nil =>
    intro s
    obtain ⟨a, b, c⟩ := s
    simp [statFold, sumPassed, sumFailed]
  | cons r rest ih =>
    intro s
    rw [statFold_cons, ih]
    simp only [statAdd, sumPassed, sumFailed, List.map_cons, List.sum_cons,
      List.length_cons, DailyStat.mk.injEq]
    refine ⟨by push_cast; ring, by ring, by ring⟩

theorem statFold_empty (rs : List ReportRecord) :
    statFold emptyStat rs =
      { runs := (rs.length : Int), passed := sumPassed rs,
        failed := sumFailed rs } := by
  rw [statFold_spec]
  simp [emptyStat]

theorem totals_foldl_updateDay : ∀ (rs : List ReportRecord) (day : DayEntry),
    (rs.foldl updateDay day).totals = statFold day.totals rs := by
  intro rs
  induction rs with
  | nil => intro day; rfl
  | cons r rest ih =>
    intro day
    rw [List.foldl_cons, ih, statFold_cons]
    rfl

/-- Totals of a fresh day: run count, passed sum, failed sum. -/
theorem totals_dayFold (d : String) (rs : List ReportRecord) :
    (dayFold d rs).totals =
      { runs := (rs.length : Int), passed := sumPassed rs,
        failed := sumFailed rs } := by
  unfold dayFold
  rw [totals_foldl_updateDay]
  have : (freshDay d).totals = emptyStat := rfl
  rw [this, statFold_empty]

theorem platforms_updateDay (day : DayEntry) (r : ReportRecord) :
    (updateDay day r).platforms =
      bump day.platforms (detectPlatform r.job) (jsToNum r.passed)
        (jsToNum r.failed) := rfl

theorem environments_updateDay (day : DayEntry) (r : ReportRecord) :
    (updateDay day r).environments =
      bump day.environments (normalizeEnv r.environment) (jsToNum r.passed)
        (jsToNum r.failed) := rfl

theorem mapGet_bump_self (m : List (String × DailyStat)) (k : String) (p f : Int) :
    mapGet (bump m k p f) k = some (statAdd ((mapGet m k).getD emptyStat) p f) :=
  mapGet_mapSet_self _ _ _

theorem mapGet_bump_ne (m : List (String × DailyStat)) {k t : String} (p f : Int)
    (h : t ≠ k) : mapGet (bump m k p f) t = mapGet m t :=
  mapGet_mapSet_ne _ _ h

theorem mapGet_platforms_foldl : ∀ (rs : List ReportRecord) (day : DayEntry)
    (t : String),
    mapGet ((rs.foldl updateDay day).platforms) t =
      if rs.filter (fun r => detectPlatform r.job = t) = []
      then mapGet day.platforms t
      else some (statFold ((mapGet day.platforms t).getD emptyStat)
        (rs.filter (fun r => detectPlatform r.job = t))) := by
  intro rs
  induction rs with
  | nil =>
    intro day t
    simp
  | cons r rest ih =>
    intro day t
    rw [List.foldl_cons, ih]
    by_cases hp : detectPlatform r.job = t
    · have hfil : (r :: rest).filter (fun r => detectPlatform r.job = t) =
          r :: rest.filter (fun r => detectPlatform r.job = t) := by
        simp [List.filter_cons, hp]
      rw [hfil]
      have hget : mapGet ((updateDay day r).platforms) t =
          some (statAdd ((mapGet day.platforms t).getD emptyStat)
            (jsToNum r.passed) (jsToNum r.failed)) := by
        rw [platforms_updateDay, hp, mapGet_bump_self]
      rw [hget]
      have hcons : ¬ (r :: rest.filter (fun r => detectPlatform r.job = t) = []) := by
        simp
      rw [if_neg hcons]
      by_cases hemp : rest.filter (fun r => detectPlatform r.job = t) = []
      · rw [if_pos hemp, hemp]
        rfl
      · rw [if_neg hemp]
        rfl
    · have hfil : (r :: rest).filter (fun r => detectPlatform r.job = t) =
          rest.filter (fun r => detectPlatform r.job = t) := by
        simp [List.filter_cons, hp]
      rw [hfil]
      have hget : mapGet ((updateDay day r).platforms) t = mapGet day.platforms t := by
        rw [platforms_updateDay]
        exact mapGet_bump_ne _ _ _ (Ne.symm hp)
      rw [hget]

theorem mapGet_environments_foldl : ∀ (rs : List ReportRecord) (day : DayEntry)
    (t : String),
    mapGet ((rs.foldl updateDay day).environments) t =
      if rs.filter (fun r => normalizeEnv r.environment = t) = []
      then mapGet day.environments t
      else some (statFold ((mapGet day.environments t).getD emptyStat)
        (rs.filter (fun r => normalizeEnv r.environment = t))) := by
  intro rs
  induction rs with
  | nil =>
    intro day t
    simp
  | cons r rest ih =>
    intro day t
    rw [List.foldl_cons, ih]
    by_cases hp : normalizeEnv r.environment = t
    · have hfil : (r :: rest).filter (fun r => normalizeEnv r.environment = t) =
          r :: rest.filter (fun r => normalizeEnv r.environment = t) := by
        simp [List.filter_cons, hp]
      rw [hfil]
      have hget : mapGet ((updateDay day r).environments) t =
          some (statAdd ((mapGet day.environments t).getD emptyStat)
            (jsToNum r.passed) (jsToNum r.failed)) := by
        rw [environments_updateDay, hp, mapGet_bump_self]
      rw [hget]
      have hcons : ¬ (r :: rest.filter (fun r => normalizeEnv r.environment = t) = []) := by
        simp
      rw [if_neg hcons]
      by_cases hemp : rest.filter (fun r => normalizeEnv r.environment = t) = []
      · rw [if_pos hemp, hemp]
        rfl
      · rw [if_neg hemp]
        rfl
    · have hfil : (r :: rest).filter (fun r => normalizeEnv r.environment = t) =
          rest.filter (fun r => normalizeEnv r.environment = t) := by
        simp [List.filter_cons, hp]
      rw [hfil]
      have hget : mapGet ((updateDay day r).environments) t =
          mapGet day.environments t := by
        rw [environments_updateDay]
        exact mapGet_bump_ne _ _ _ (Ne.symm hp)
      rw [hget]

/-! ## Cross-breakdown sums -/

theorem statsSum_cons (p : String × DailyStat) (m : List (String × DailyStat)) :
    statsSum (p :: m) =
      { runs := p.2.runs + (statsSum m).runs,
        passed := p.2.passed + (statsSum m).passed,
        failed := p.2.failed + (statsSum m).failed } := by
  simp [statsSum]

theorem statsSum_bump : ∀ (m : List (String × DailyStat)) (k : String) (p f : Int),
    statsSum (bump m k p f) = statAdd (statsSum m) p f := by
  intro m
  induction m with
  | nil =>
    intro k p f
    simp only [bump, mapGet, mapSet, statsSum, statAdd, emptyStat,
      Option.getD, List.map_nil, List.map_cons, List.sum_nil, List.sum_cons,
      DailyStat.mk.injEq]
    refine ⟨by ring, by ring, by ring⟩
  | cons q rest ih =>
    intro k p f
    obtain ⟨k1, s1⟩ := q
    by_cases h : k1 = k
    · subst h
      have hb : bump ((k1, s1) :: rest) k1 p f = (k1, statAdd s1 p f) :: rest := by
        simp [bump, mapGet, mapSet]
      rw [hb, statsSum_cons, statsSum_cons]
      simp only [statAdd, DailyStat.mk.injEq]
      refine ⟨by ring, by ring, by ring⟩
    · have hb : bump ((k1, s1) :: rest) k p f = (k1, s1) :: bump rest k p f := by
        simp [bump, mapGet, mapSet, h, Ne.symm h]
      rw [hb, statsSum_cons, ih, statsSum_cons]
      simp only [statAdd, DailyStat.mk.injEq]
      refine ⟨by ring, by ring, by ring⟩

theorem statsSum_invariant : ∀ (rs : List ReportRecord) (day : DayEntry),
    statsSum day.platforms = day.totals →
    statsSum day.environments = day.totals →
    statsSum (rs.foldl updateDay day).platforms = (rs.foldl updateDay day).totals ∧
    statsSum (rs.foldl updateDay day).environments = (rs.foldl updateDay day).totals := by
  intro rs
  induction rs with
  | nil =>
    intro day hp he
    exact ⟨hp, he⟩
  | cons r rest ih =>
    intro day hp he
    rw [List.foldl_cons]
    apply ih
    · rw [platforms_updateDay, statsSum_bump, hp]
      rfl
    · rw [environments_updateDay, statsSum_bump, he]
      rfl

/-- In every freshly folded day, the platform buckets and the
environment buckets each sum componentwise to the day totals. -/
theorem statsSum_dayFold (d : String) (rs : List ReportRecord) :
    statsSum (dayFold d rs).platforms = (dayFold d rs).totals ∧
    statsSum (dayFold d rs).environments = (dayFold d rs).totals := by
  unfold dayFold
  exact statsSum_invariant rs (freshDay d) rfl rfl

/-! ## Idempotence machinery -/

theorem mapGet_historyMap_updateStats (M : List ReportRecord) (H : List DayEntry)
    (d : String) :
    mapGet (historyMap (updateStats M H)) d = mapGet (mergedMap M H) d := by
  rw [mapGet_historyMap _ (nodup_dates_updateStats M H) d]
  exact lookupDate_updateStats M H d

theorem mapGet_mergedMap_idem (M : List ReportRecord) (H : List DayEntry)
    (d : String) :
    mapGet (mergedMap M (updateStats M H)) d = mapGet (mergedMap M H) d := by
  rw [mapGet_mergedMap, mapGet_historyMap_updateStats, mapGet_mergedMap, optOr_absorb]

theorem mem_keys_iff_mapGet {α : Type} (m : List (String × α)) (k : String) :
    k ∈ m.map Prod.fst ↔ ¬ mapGet m k = none := by
  constructor
  · intro h hnone
    exact (mapGet_eq_none_iff m k).mp hnone h
  · intro h
    by_contra hk
    exact h ((mapGet_eq_none_iff m k).mpr hk)

theorem keys_mergedMap_idem_perm (M : List ReportRecord) (H : List DayEntry) :
    List.Perm ((mergedMap M (updateStats M H)).map Prod.fst)
      ((mergedMap M H).map Prod.fst) := by
  rw [List.perm_ext_iff_of_nodup (nodup_keys_mergedMap _ _) (nodup_keys_mergedMap _ _)]
  intro k
  rw [mem_keys_iff_mapGet, mem_keys_iff_mapGet, mapGet_mergedMap_idem]

theorem sortedKeys_idem (M : List ReportRecord) (H : List DayEntry) :
    List.insertionSort (fun a b => a ≤ b)
        ((mergedMap M (updateStats M H)).map Prod.fst) =
      List.insertionSort (fun a b => a ≤ b) ((mergedMap M H).map Prod.fst) := by
  haveI hanti : IsAntisymm String (fun a b : String => a ≤ b) :=
    ⟨fun a b h1 h2 => le_antisymm h1 h2⟩
  refine List.eq_of_perm_of_sorted ?_ (List.sorted_insertionSort _ _)
    (List.sorted_insertionSort _ _)
  exact ((List.perm_insertionSort _ _).trans (keys_mergedMap_idem_perm M H)).trans
    (List.perm_insertionSort _ _).symm

/-- An entry found in the fresh by-date map is the fold of exactly the
manifest records of its date. -/
theorem day_of_buildNewData {M : List ReportRecord} {d : String} {day : DayEntry}
    (hday : mapGet (buildNewData M) d = some day) :
    day = dayFold d (recordsFor M d) := by
  rw [mapGet_buildNewData] at hday
  by_cases hemp : recordsFor M d = []
  · rw [if_pos hemp] at hday
    exact absurd hday (by simp)
  · rw [if_neg hemp] at hday
    exact (Option.some.inj hday).symm

/-! ## The claims -/

/-- C1 — Preservation: for every date with an entry in the prior history
log and no record of the current manifest mapping to it, the merged
output contains exactly that prior entry, unchanged in every field. -/
theorem C1_preservation (M : List ReportRecord) (H : List DayEntry) (e : DayEntry)
    (hnd : (H.map DayEntry.date).Nodup) (he : e ∈ H)
    (habs : ∀ r ∈ M, extractDate r.timestamp ≠ some e.date) :
    lookupDate (updateStats M H) e.date = some e ∧ e ∈ updateStats M H := by
  have hrec : recordsFor M e.date = [] := by
    unfold recordsFor
    rw [List.filter_eq_nil_iff]
    intro r hr
    simpa using habs r hr
  have hb : mapGet (buildNewData M) e.date = none := by
    rw [mapGet_buildNewData, if_pos hrec]
  have hl : lookupDate (updateStats M H) e.date = some e := by
    rw [lookupDate_updateStats_or, hb, optOr_none, mapGet_historyMap H hnd,
      lookupDate_eq_some_of_mem hnd he]
  exact ⟨hl, List.mem_of_find?_eq_some hl⟩

/-- Closed instance of C1: the 2026-02-01 entry survives a manifest that
only holds 2026-02-18 records. -/
theorem C1_preservation_witness :
    (([wOldEntry].map DayEntry.date).Nodup ∧ wOldEntry ∈ [wOldEntry] ∧
      ∀ r ∈ [wRec1], extractDate r.timestamp ≠ some wOldEntry.date) ∧
    lookupDate (updateStats [wRec1] [wOldEntry]) wOldEntry.date = some wOldEntry := by
  refine ⟨⟨by decide, by decide, by decide⟩, ?_⟩
  exact (C1_preservation [wRec1] [wOldEntry] wOldEntry (by decide) (by decide)
    (by decide)).1

/-- C2 — Overwrite-not-merge: for every date with at least one manifest
record, the output entry of that date is the day folded from the current
manifest records of that date alone, independent of the prior history:
it also equals the output of a run with empty prior history. -/
theorem C2_overwrite (M : List ReportRecord) (H : List DayEntry) (d : String)
    (r0 : ReportRecord) (hr : r0 ∈ M) (hd : extractDate r0.timestamp = some d) :
    lookupDate (updateStats M H) d = some (dayFold d (recordsFor M d)) ∧
    lookupDate (updateStats M H) d = lookupDate (updateStats M []) d := by
  have hne : recordsFor M d ≠ [] := by
    intro hnil
    have hmem : r0 ∈ recordsFor M d := by
      unfold recordsFor
      rw [List.mem_filter]
      exact ⟨hr, by simpa using hd⟩
    rw [hnil] at hmem
    exact absurd hmem (List.not_mem_nil r0)
  have hb : mapGet (buildNewData M) d = some (dayFold d (recordsFor M d)) := by
    rw [mapGet_buildNewData, if_neg hne]
  constructor
  · rw [lookupDate_updateStats_or, hb, optOr_some]
  · rw [lookupDate_updateStats_or, lookupDate_updateStats_or, hb, optOr_some,
      optOr_some]

/-- Closed instance of C2: the 2026-02-18 entry of a run over the
two-record manifest ignores the prior history entirely. -/
theorem C2_overwrite_witness :
    (wRec1 ∈ [wRec1, wRec2] ∧ extractDate wRec1.timestamp = some "2026-02-18") ∧
    lookupDate (updateStats [wRec1, wRec2] [wOldEntry]) "2026-02-18" =
      some (dayFold "2026-02-18" (recordsFor [wRec1, wRec2] "2026-02-18")) := by
  refine ⟨⟨by decide, by decide⟩, ?_⟩
  exact (C2_overwrite [wRec1, wRec2] [wOldEntry] "2026-02-18" wRec1 (by decide)
    (by decide)).1

/-- C3 — Sum correctness: the freshly computed day of a date carries as
totals the run count and the passed and failed sums of the records of
that date, and each platform bucket and environment bucket carries the
same sums restricted to its tag. -/
theorem C3_sum_correctness (M : List ReportRecord) (d : String) (day : DayEntry)
    (hday : mapGet (buildNewData M) d = some day) :
    (day.totals.runs = ((recordsFor M d).length : Int) ∧
      day.totals.passed = sumPassed (recordsFor M d) ∧
      day.totals.failed = sumFailed (recordsFor M d)) ∧
    (∀ t s, mapGet day.platforms t = some s →
      s.runs = (((recordsFor M d).filter
          (fun r => detectPlatform r.job = t)).length : Int) ∧
      s.passed = sumPassed ((recordsFor M d).filter
          (fun r => detectPlatform r.job = t)) ∧
      s.failed = sumFailed ((recordsFor M d).filter
          (fun r => detectPlatform r.job = t))) ∧
    (∀ t s, mapGet day.environments t = some s →
      s.runs = (((recordsFor M d).filter
          (fun r => normalizeEnv r.environment = t)).length : Int) ∧
      s.passed = sumPassed ((recordsFor M d).filter
          (fun r => normalizeEnv r.environment = t)) ∧
      s.failed = sumFailed ((recordsFor M d).filter
          (fun r => normalizeEnv r.environment = t))) := by
  have hday2 : day = dayFold d (recordsFor M d) := day_of_buildNewData hday
  subst hday2
  refine ⟨?_, ?_, ?_⟩
  · rw [totals_dayFold]
    exact ⟨rfl, rfl, rfl⟩
  · intro t s hs
    unfold dayFold at hs
    rw [mapGet_platforms_foldl] at hs
    by_cases hemp : (recordsFor M d).filter (fun r => detectPlatform r.job = t) = []
    · rw [if_pos hemp] at hs
      exact absurd hs (by simp [freshDay, mapGet])
    · rw [if_neg hemp] at hs
      simp only [freshDay, mapGet, Option.getD_none] at hs
      rw [statFold_empty] at hs
      have hss := Option.some.inj hs
      subst hss
      exact ⟨rfl, rfl, rfl⟩
  · intro t s hs
    unfold dayFold at hs
    rw [mapGet_environments_foldl] at hs
    by_cases hemp :
        (recordsFor M d).filter (fun r => normalizeEnv r.environment = t) = []
    · rw [if_pos hemp] at hs
      exact absurd hs (by simp [freshDay, mapGet])
    · rw [if_neg hemp] at hs
      simp only [freshDay, mapGet, Option.getD_none] at hs
      rw [statFold_empty] at hs
      have hss := Option.some.inj hs
      subst hss
      exact ⟨rfl, rfl, rfl⟩

/-- Closed instance of C3 on the two-record scenario. -/
theorem C3_sum_correctness_witness :
    mapGet (buildNewData [wRec1, wRec2]) "2026-02-18" =
      some (dayFold "2026-02-18" (recordsFor [wRec1, wRec2] "2026-02-18")) ∧
    ((dayFold "2026-02-18" (recordsFor [wRec1, wRec2] "2026-02-18")).totals.runs =
        ((recordsFor [wRec1, wRec2] "2026-02-18").length : Int) ∧
      (dayFold "2026-02-18" (recordsFor [wRec1, wRec2] "2026-02-18")).totals.passed =
        sumPassed (recordsFor [wRec1, wRec2] "2026-02-18") ∧
      (dayFold "2026-02-18" (recordsFor [wRec1, wRec2] "2026-02-18")).totals.failed =
        sumFailed (recordsFor [wRec1, wRec2] "2026-02-18")) := by
  refine ⟨by rfl, ?_⟩
  exact (C3_sum_correctness [wRec1, wRec2] "2026-02-18"
    (dayFold "2026-02-18" (recordsFor [wRec1, wRec2] "2026-02-18")) (by rfl)).1

/-- C4 — Classification: the platform tag is derived from the
lower-cased job field by the spec's first-match rules in their fixed
order, and the environment tag from the lower-cased environment field by
the spec's rules with the non-empty lower-cased original as fallback. -/
theorem C4_classification (r : ReportRecord) :
    detectPlatform r.job = specPlatformOf ((r.job.getD "").toLower) ∧
    normalizeEnv r.environment = specEnvOf ((r.environment.getD "").toLower) := by
  constructor
  · have h : ∀ j : String,
        (if strIncludes j "android" then "android"
         else if strIncludes j "ios" then "ios"
         else if strIncludes j "browser" || strIncludes j "desktop" ||
             strIncludes j "responsive" then "browser"
         else "other") = specPlatformOf j := by
      intro j
      cases ha : strIncludes j "android" <;>
        cases hi : strIncludes j "ios" <;>
          cases hb : strIncludes j "browser" <;>
            cases hd : strIncludes j "desktop" <;>
              cases hr : strIncludes j "responsive" <;>
                simp [specPlatformOf, ha, hi, hb, hd, hr]
    exact h ((r.job.getD "").toLower)
  · have h : ∀ e : String,
        (if strIncludes e "sandbox" then "sandbox"
         else if strIncludes e "staging" then "staging"
         else if strIncludes e "flux" then "flux"
         else if strIncludes e "local" then "local"
         else if e = "" then "unknown"
         else e) = specEnvOf e := by
      intro e
      cases hs : strIncludes e "sandbox" <;>
        cases ht : strIncludes e "staging" <;>
          cases hf : strIncludes e "flux" <;>
            cases hl : strIncludes e "local" <;>
              simp [specEnvOf, hs, ht, hf, hl, ne_eq, ite_not]
    exact h ((r.environment.getD "").toLower)

/-- C5 — Idempotence: feeding the output of one run back as the prior
history of a second run over the same manifest reproduces the same entry
list (the lastUpdated timestamp, a wall-clock value outside the merge,
is the only field not modelled). -/
theorem C5_idempotence (M : List ReportRecord) (H : List DayEntry) :
    updateStats M (updateStats M H) = updateStats M H := by
  have h1 : updateStats M (updateStats M H) =
      (List.insertionSort (fun a b => a ≤ b) ((mergedMap M H).map Prod.fst)).filterMap
        (mapGet (mergedMap M (updateStats M H))) := by
    rw [updateStats_eq M (updateStats M H), sortedKeys_idem]
  rw [h1]
  conv_rhs => rw [updateStats_eq M H]
  exact List.filterMap_congr (fun k hk => mapGet_mergedMap_idem M H k)

/-- C6 — Output structure invariant: for every manifest and prior
history, the output entry list is sorted ascending by date string and no
two entries share a date. -/
theorem C6_sorted_nodup (M : List ReportRecord) (H : List DayEntry) :
    List.Sorted (fun a b : String => a ≤ b) ((updateStats M H).map DayEntry.date) ∧
    ((updateStats M H).map DayEntry.date).Nodup :=
  ⟨sorted_dates_updateStats M H, nodup_dates_updateStats M H⟩

/-- C7 — Corrupt-history recovery: a prior history file that exists but
does not parse only produces a warning; the run succeeds and its entries
equal those of a run with no prior history at all. -/
theorem C7_corrupt_recovery (M : List ReportRecord) (s : String) :
    runScript (some M) (HistoryFile.corrupt s) =
      Except.ok { warned := true, entries := updateStats M [] } ∧
    (runScript (some M) (HistoryFile.corrupt s)).map RunOutput.entries =
      (runScript (some M) HistoryFile.absent).map RunOutput.entries :=
  ⟨rfl, rfl⟩

/-- C8 — Malformed-field tolerance: a record with no parseable date is
dropped from aggregation entirely; a passed or failed field on which
parseInt yields NaN (in particular a missing field) is coerced to zero,
while the record still counts one run toward the totals.  All embedded
operations are total, so no input raises. -/
theorem C8_malformed_tolerance (M : List ReportRecord) (H : List DayEntry)
    (r : ReportRecord) :
    (extractDate r.timestamp = none → updateStats (M ++ [r]) H = updateStats M H) ∧
    (jsParseInt r.passed = none → jsToNum r.passed = 0) ∧
    (jsParseInt r.failed = none → jsToNum r.failed = 0) ∧
    (∀ day : DayEntry, (updateDay day r).totals.runs = day.totals.runs + 1 ∧
      (updateDay day r).totals.passed = day.totals.passed + jsToNum r.passed ∧
      (updateDay day r).totals.failed = day.totals.failed + jsToNum r.failed) := by
  refine ⟨?_, ?_, ?_, ?_⟩
  · intro hnone
    have hb : buildNewData (M ++ [r]) = buildNewData M := by
      rw [buildNewData_append_one]
      simp [addRecord, hnone]
    unfold updateStats mergedMap
    rw [hb]
  · intro h
    simp [jsToNum, h]
  · intro h
    simp [jsToNum, h]
  · intro day
    exact ⟨rfl, rfl, rfl⟩

/-- Closed instance of C8: a record with no timestamp and a non-numeric
passed field is dropped, and its counts coerce to zero. -/
theorem C8_malformed_tolerance_witness :
    (extractDate wRecBad.timestamp = none ∧ jsParseInt wRecBad.passed = none ∧
      jsParseInt wRecBad.failed = none) ∧
    updateStats ([wRec1] ++ [wRecBad]) [wOldEntry] = updateStats [wRec1] [wOldEntry] ∧
    jsToNum wRecBad.passed = 0 ∧ jsToNum wRecBad.failed = 0 := by
  refine ⟨⟨by decide, by decide, by decide⟩, ?_, ?_, ?_⟩
  · exact (C8_malformed_tolerance [wRec1] [wOldEntry] wRecBad).1 (by decide)
  · exact (C8_malformed_tolerance [wRec1] [wOldEntry] wRecBad).2.1 (by decide)
  · exact (C8_malformed_tolerance [wRec1] [wOldEntry] wRecBad).2.2.1 (by decide)

/-- C9 — Reconciler counting: with readable per-status counts, the
recomputed record has passed unchanged, failed as failed plus broken,
and total as passed plus failed plus broken. -/
theorem C9_reconciler_counting (stat : AllureStatistic) (p f b : Int)
    (hp : stat.passed = some p) (hf : stat.failed = some f)
    (hb : stat.broken = some b) :
    ∃ c, countFromSummary (some stat) = some c ∧
      c.passed = p ∧ c.failed = f + b ∧ c.total = p + f + b := by
  refine ⟨_, rfl, ?_, ?_, ?_⟩ <;> simp [hp, hf, hb]

/-- Closed instance of C9: 10 passed, 2 failed, 1 broken gives 10 / 3 / 13. -/
theorem C9_reconciler_counting_witness :
    (wStat.passed = some 10 ∧ wStat.failed = some 2 ∧ wStat.broken = some 1) ∧
    ∃ c, countFromSummary (some wStat) = some c ∧
      c.passed = 10 ∧ c.failed = 2 + 1 ∧ c.total = 10 + 2 + 1 := by
  refine ⟨⟨by decide, by decide, by decide⟩, ?_⟩
  exact C9_reconciler_counting wStat 10 2 1 (by decide) (by decide) (by decide)

/-- C10 — Cross-breakdown consistency: in every freshly computed day,
the platform buckets sum componentwise to the totals, and so do the
environment buckets. -/
theorem C10_cross_breakdown (M : List ReportRecord) (d : String) (day : DayEntry)
    (hday : mapGet (buildNewData M) d = some day) :
    statsSum day.platforms = day.totals ∧ statsSum day.environments = day.totals := by
  have hday2 : day = dayFold d (recordsFor M d) := day_of_buildNewData hday
  subst hday2
  exact statsSum_dayFold d (recordsFor M d)

/-- Closed instance of C10 on the two-record scenario. -/
theorem C10_cross_breakdown_witness :
    mapGet (buildNewData [wRec1, wRec2]) "2026-02-18" =
      some (dayFold "2026-02-18" (recordsFor [wRec1, wRec2] "2026-02-18")) ∧
    statsSum (dayFold "2026-02-18" (recordsFor [wRec1, wRec2] "2026-02-18")).platforms =
      (dayFold "2026-02-18" (recordsFor [wRec1, wRec2] "2026-02-18")).totals := by
  refine ⟨by rfl, ?_⟩
  exact (C10_cross_breakdown [wRec1, wRec2] "2026-02-18"
    (dayFold "2026-02-18" (recordsFor [wRec1, wRec2] "2026-02-18")) (by rfl)).1

end PaymiumStats
